import Mathlib

/-!
Verification of the BlueFin-LSM search-and-evaluation control system.

Shallow embedding of the evaluation pipeline and post-hoc analysis of
`sim_and_opt/bluefin_motor.py`, `sim_and_opt/analysis.py`,
`sim_and_opt/Analysis/weighted_best.py` and the older loop in
`sim_and_opt/old optimization/bluefin_optimization.py`.

Python floats are modelled as exact rationals (ℚ); the claims under
study are about control flow, filtering and exact arithmetic identities,
not about rounding of binary floating point.
-/

namespace BlueFin

/-! ## Constants from `bluefin_motor.py` -/

def Voltage_Max : ℚ := 35
def Power_Max : ℚ := 100
def Inductance_Max : ℚ := 1/100

/-- Modelled from the spec: `EPSILON` is imported from
`bluefin.configs.constants`, which is not part of this repository; the
spec fixes the numerical-stability epsilon at `1e-9`. -/
def EPSILON : ℚ := 1/1000000000

def Radial_Thickness_Bounds : ℚ × ℚ := (1/5, 10)
def Axial_Length_Bounds : ℚ × ℚ := (1/5, 10)
def Axial_Spacing_Bounds : ℚ × ℚ := (6/5, 10)

def candidate_wire_diameters : List ℚ :=
  [1/8, 4/25, 1/5, 1/4, 63/200, 2/5, 1/2, 63/100, 4/5, 1, 5/4, 8/5, 2, 5/2]

/-! ## Python primitives -/

/-- Python's `round` on a float: round half to even (banker's rounding). -/
def pyRound (x : ℚ) : ℤ :=
  let f : ℤ := ⌊x⌋
  let r : ℚ := x - f
  if r < 1/2 then f
  else if r > 1/2 then f + 1
  else if f % 2 = 0 then f else f + 1

/-- `min(hi, max(lo, x))`, the clamp of the optimization loop. -/
def clampQ (lo hi x : ℚ) : ℚ := min hi (max lo x)

/-- Index of the element of largest absolute value, first occurrence,
as Python's `max(range(len(l)), key=lambda j: abs(l[j]))`. -/
def argmaxAbs (l : List ℚ) : ℕ :=
  (List.range l.length).foldl
    (fun best j => if |l.getD j 0| > |l.getD best 0| then j else best) 0

/-! ## Step records of a sweep result

`rotational_analysis` returns a list of per-step records; the extractor
reads the requested output channels of each. -/

structure StepRecord where
  force_lorentz : List ℚ
  phase_power : List ℚ
  phase_voltage : List ℚ
  phase_current : List ℚ
  phase_inductance : List ℚ
deriving DecidableEq, Repr

/-- `time_constant` from `bluefin_motor.py`. -/
def time_constant (inductance resist : ℚ) : ℚ := inductance / resist

/-- `resistance` from `bluefin_motor.py`. -/
def resistance (voltage current : ℚ) : ℚ := |voltage / current|

/-- Modelled from the spec: `ripple_peak_to_peak` lives in
`bluefin.domain.physics.ripple`, outside this repository; the spec
defines ripple as the peak-to-peak span (max − min) of the force series. -/
def ripple_peak_to_peak (xs : List ℚ) : ℚ :=
  (xs.foldl max (xs.headD 0)) - (xs.foldl min (xs.headD 0))

/-- The sentinel failure fitness of `evaluate_motor`. -/
structure Fit where
  avg_force : ℚ
  force_per_watt : ℚ
  ripple_force : ℚ
  avg_inductance : ℚ
  avg_resistance : ℚ
  tau : ℚ
deriving DecidableEq, Repr

def sentinel : Fit :=
  ⟨-1000000, -1000000, 1000000, 1000000, 1000000, 1000000⟩

/-! ## The fitness extractor and constraint gate (`evaluate_motor`) -/

/-- Index of the phase carrying peak current magnitude at a step. -/
def peakIdx (e : StepRecord) : ℕ := argmaxAbs e.phase_current

def peakCurrent (e : StepRecord) : ℚ := e.phase_current.getD (peakIdx e) 0
def peakVoltage (e : StepRecord) : ℚ := e.phase_voltage.getD (peakIdx e) 0
def peakInductance (e : StepRecord) : ℚ := e.phase_inductance.getD (peakIdx e) 0

/-- The per-step loop of `evaluate_motor`: walks the steps in order,
short-circuiting to `none` at the first peak-phase inductance or
voltage ceiling violation, otherwise accumulating `|voltage/current|`
and the co-located inductance for steps whose peak current magnitude
exceeds `EPSILON`. -/
def gateSteps : List StepRecord → Option (List ℚ × List ℚ)
  | [] => some ([], [])
  | e :: rest =>
    if peakInductance e > Inductance_Max then none
    else if peakVoltage e > Voltage_Max then none
    else
      match gateSteps rest with
      | none => none
      | some (rs, ls) =>
        if |peakCurrent e| > EPSILON then
          some (resistance (peakVoltage e) (peakCurrent e) :: rs, peakInductance e :: ls)
        else some (rs, ls)

def forcesOf (results : List StepRecord) : List ℚ :=
  results.map (fun e => e.force_lorentz.headD 0)

def powersOf (results : List StepRecord) : List ℚ :=
  results.map (fun e => e.phase_power.sum)

def avgForce (results : List StepRecord) : ℚ :=
  (forcesOf results).sum / (forcesOf results).length

def avgPower (results : List StepRecord) : ℚ :=
  (powersOf results).sum / (powersOf results).length

/-- `evaluate_motor` after the simulation call: the fitness extractor
fused with the constraint gate, consuming the sweep results. -/
def evaluate_motor (results : List StepRecord) : Fit :=
  if results = [] then sentinel
  else
    let avg_force := avgForce results
    let avg_power := avgPower results
    let force_per_watt := avg_force / (avg_power + EPSILON)
    if avg_power > Power_Max then sentinel
    else
      let ripple_force := ripple_peak_to_peak (forcesOf results)
      match gateSteps results with
      | none => sentinel
      | some (resistances, selected_inductances) =>
        let avg_resistance :=
          if resistances ≠ [] then resistances.sum / resistances.length else EPSILON
        let avg_inductance :=
          if selected_inductances ≠ [] then
            selected_inductances.sum / selected_inductances.length
          else 0
        let tau :=
          if avg_resistance > EPSILON then time_constant avg_inductance avg_resistance
          else 0
        ⟨avg_force, force_per_watt, ripple_force, avg_inductance, avg_resistance, tau⟩

/-! ## Candidate clamping (optimization loop and `evaluate_motor` head) -/

/-- An offspring parameter vector before clamping:
(slot thickness, slot axial length, slot axial spacing, back-iron
thickness, wire-gauge index). -/
structure RawInd where
  thickness : ℚ
  length : ℚ
  spacing : ℚ
  back : ℚ
  wire : ℚ
deriving DecidableEq, Repr

/-- An offspring after the post-variation clamp: the wire slot holds an
integer. -/
structure ClampedInd where
  thickness : ℚ
  length : ℚ
  spacing : ℚ
  back : ℚ
  wire : ℤ
deriving DecidableEq, Repr

/-- The post-variation clamp of the optimization loop in
`bluefin_motor.py`. -/
def clampInd (ind : RawInd) : ClampedInd where
  thickness := clampQ Radial_Thickness_Bounds.1 Radial_Thickness_Bounds.2 ind.thickness
  length := clampQ Axial_Length_Bounds.1 Axial_Length_Bounds.2 ind.length
  spacing := clampQ Axial_Spacing_Bounds.1 Axial_Spacing_Bounds.2 ind.spacing
  back := clampQ Radial_Thickness_Bounds.1 Radial_Thickness_Bounds.2 ind.back
  wire := min (candidate_wire_diameters.length - 1 : ℤ) (max 0 (pyRound ind.wire))

/-- The wire-index normalisation at the head of `evaluate_motor`:
`int(round(.))` then clamp into `[0, len(candidate_wire_diameters)-1]`. -/
def wireIndex (w : ℚ) : ℤ :=
  max 0 (min (candidate_wire_diameters.length - 1 : ℤ) (pyRound w))

/-- The catalog lookup `candidate_wire_diameters[wire_index]`. -/
def wireDiameter (w : ℚ) : ℚ :=
  candidate_wire_diameters.getD (wireIndex w).toNat 0

/-! ## Post-hoc analysis (`analysis.py`) -/

/-- The fixed weight tuple of `analysis.py`. -/
def WEIGHTS : Fin 6 → ℚ := ![6, 3, -4, -2, -1, -4]

/-- One logged individual as read back by `analysis.py`: a status string
and the six named fitness fields. -/
structure LoggedInd where
  status : String
  fitness : Fin 6 → ℚ
deriving DecidableEq

instance : Inhabited LoggedInd := ⟨⟨"", fun _ => 0⟩⟩

/-- `extract_fitness` of `analysis.py`. -/
def extract_fitness (ind : LoggedInd) : Fin 6 → ℚ := ind.fitness

/-- `score` of `analysis.py`: the weighted sum over the six objectives. -/
def score (ind : LoggedInd) : ℚ := ∑ i, WEIGHTS i * extract_fitness ind i

/-- `dominates` of `analysis.py` over raw fitness tuples. -/
def dominates (a b : Fin 6 → ℚ) : Prop :=
  (∀ i, WEIGHTS i * a i ≥ WEIGHTS i * b i) ∧ (∃ i, WEIGHTS i * a i > WEIGHTS i * b i)

instance (a b : Fin 6 → ℚ) : Decidable (dominates a b) := by
  unfold dominates; infer_instance

/-- `pareto_front` of `analysis.py`: keep the individual at position `i`
iff no individual at another position dominates it. -/
def pareto_front (individuals : List LoggedInd) : List LoggedInd :=
  ((individuals.enum.filter (fun p =>
      !(individuals.enum.any (fun q =>
          q.1 ≠ p.1 && decide (dominates (extract_fitness q.2) (extract_fitness p.2)))))).map
    Prod.snd)

/-- The flattened input of `analysis.py`: a run file is a list of motors,
each holding a list of generations, each holding individuals. -/
structure AnalysisGen where
  individuals : List LoggedInd

structure AnalysisMotor where
  generations : List AnalysisGen

/-- The validity filter of `analysis.py`'s `main`: status `"completed"`
and every objective of magnitude below `1e5`. -/
def validInd (ind : LoggedInd) : Bool :=
  ind.status = "completed" && decide (∀ i, |extract_fitness ind i| < 100000)

/-- The flattening-and-filtering loop of `analysis.py`'s `main`. -/
def validIndividuals (data : List AnalysisMotor) : List LoggedInd :=
  data.flatMap (fun motor =>
    motor.generations.flatMap (fun gen => gen.individuals.filter validInd))

/-- `max(individuals, key=score)`: Python's `max` keeps the first
maximal element; it is undefined (raises) on an empty sequence. -/
def bestByScore : List LoggedInd → Option LoggedInd
  | [] => none
  | x :: xs => some (xs.foldl (fun best y => if score y > score best then y else best) x)

/-- The sentinel failure fitness as it appears in the run log read by
`analysis.py`. -/
def sentinelFitness : Fin 6 → ℚ :=
  ![-1000000, -1000000, 1000000, 1000000, 1000000, 1000000]

/-! ## `Analysis/weighted_best.py` -/

/-- The fixed weight tuple of `weighted_best.py`:
(Average Force, Force Per Watt, Average Inductance, Peak-to-Peak Force). -/
def wbWeights : Fin 4 → ℚ := ![5, 2, -1, -1]

/-- The fitness dictionary consumed by `calculate_score`: each named
field may be absent (`dict.get` with default 0). -/
structure FitnessData where
  average_force : Option ℚ
  force_per_watt : Option ℚ
  average_inductance : Option ℚ
  peak_to_peak_force : Option ℚ
deriving DecidableEq, Repr

/-- `calculate_score` of `weighted_best.py`: weighted sum of the four
fitness fields, a missing field contributing its default 0. -/
def calculate_score (fitness_data : FitnessData) (weights : Fin 4 → ℚ) : ℚ :=
  weights 0 * fitness_data.average_force.getD 0 +
  weights 1 * fitness_data.force_per_watt.getD 0 +
  weights 2 * fitness_data.average_inductance.getD 0 +
  weights 3 * fitness_data.peak_to_peak_force.getD 0

/-- One motor record as read by `weighted_best.py`: the `fitness` key
may be absent entirely (`motor.get("fitness", {})`). -/
structure WBMotor where
  status : String
  fitness : Option FitnessData
deriving DecidableEq

/-- One generation record of the old run-log format. -/
structure WBGeneration where
  individuals : List WBMotor

/-- `current_score > best_score` where `none` stands for the initial
`float('-inf')`. -/
def beats (current : ℚ) : Option ℚ → Bool
  | none => true
  | some b => current > b

/-- `find_best_motor` of `weighted_best.py`: scan all generations'
individuals in order, considering only `"completed"` motors, keeping
the strictly best score; `(none, none)` models the initial
`(None, float('-inf'))`. -/
def find_best_motor (data : List WBGeneration) (weights : Fin 4 → ℚ) :
    Option WBMotor × Option ℚ :=
  data.foldl (fun acc generation =>
    generation.individuals.foldl (fun best motor =>
      if motor.status = "completed" then
        let current_score := calculate_score (motor.fitness.getD ⟨none, none, none, none⟩) weights
        if beats current_score best.2 then (some motor, some current_score) else best
      else best) acc) (none, none)

/-! ## The generation loop's event trace (`bluefin_motor.py` vs the old
`bluefin_optimization.py`)

Per generation both loops walk the clamped offspring in population
order; for each individual they append a `started` record, evaluate,
then update it to `completed`. They differ in when `write_output_json`
persists the log: the current loop writes once after the whole
generation, the old loop writes after every status transition. -/

inductive LogEvent where
  | logStarted (i : ℕ)
  | evalInd (i : ℕ)
  | logCompleted (i : ℕ)
  | persist
deriving DecidableEq, Repr

/-- Whether an event is a status transition of some individual. -/
def LogEvent.isTransition : LogEvent → Bool
  | .logStarted _ => true
  | .logCompleted _ => true
  | _ => false

/-- The event trace of one generation of the current loop in
`bluefin_motor.py`: per individual append `started`, evaluate, mark
`completed`; one `write_output_json` after the loop. -/
def newGenTrace (n : ℕ) : List LogEvent :=
  ((List.range n).flatMap (fun i => [.logStarted i, .evalInd i, .logCompleted i]))
    ++ [.persist]

/-- The event trace of one generation of the old loop in
`old optimization/bluefin_optimization.py`: `write_output_json` runs
right after the `started` append and again after the `completed`
update, for every individual. -/
def oldGenTrace (n : ℕ) : List LogEvent :=
  (List.range n).flatMap
    (fun i => [.logStarted i, .persist, .evalInd i, .logCompleted i, .persist])

/-- The subsequence of status transitions of a trace. -/
def transitionsOf (t : List LogEvent) : List LogEvent :=
  t.filter LogEvent.isTransition

/-- The number of persistent writes in a trace. -/
def persistCount (t : List LogEvent) : ℕ :=
  (t.filter (fun e => e = .persist)).length

/-- The subsequence of status transitions and persistent writes. -/
def transitionsAndWrites (t : List LogEvent) : List LogEvent :=
  t.filter (fun e => e.isTransition || e = .persist)

/-- Over the transition/write subsequence: every status transition is
immediately followed by a persistent write. This is the formal reading
of "written to persistent storage after every individual's status
transition (not batched)". -/
def eachTransitionPersisted : List LogEvent → Bool
  | [] => true
  | e :: rest =>
    if e.isTransition then
      match rest with
      | .persist :: rest2 => eachTransitionPersisted rest2
      | _ => false
    else eachTransitionPersisted rest

/-! ## Derived views of the extractor used to state the claims -/

/-- A step trips the inline constraint gate: its peak-current-phase
inductance or voltage exceeds the ceiling. -/
def stepViolates (e : StepRecord) : Prop :=
  peakInductance e > Inductance_Max ∨ peakVoltage e > Voltage_Max

instance (e : StepRecord) : Decidable (stepViolates e) := by
  unfold stepViolates; infer_instance

/-- The steps whose peak current magnitude exceeds `EPSILON` (the ones
that contribute to the resistance/inductance averages). -/
def qualifyingSteps (results : List StepRecord) : List StepRecord :=
  results.filter (fun e => decide (|peakCurrent e| > EPSILON))

def selectedResistances (results : List StepRecord) : List ℚ :=
  (qualifyingSteps results).map (fun e => resistance (peakVoltage e) (peakCurrent e))

def selectedInductances (results : List StepRecord) : List ℚ :=
  (qualifyingSteps results).map peakInductance

/-- The local `force_per_watt` of `evaluate_motor`. -/
def force_per_watt (results : List StepRecord) : ℚ :=
  avgForce results / (avgPower results + EPSILON)

/-! ## Concrete inputs used by counterexamples and witnesses -/

/-- Two steps: the first step's summed phase power is 150 W (above the
100 W ceiling) but the sweep average is 75 W; no per-step peak-phase
ceiling is hit. -/
def c1Input : List StepRecord :=
  [⟨[1], [150], [1], [1], [0]⟩, ⟨[1], [0], [1], [1], [0]⟩]

/-- One step whose peak-phase voltage is 40 V, above the 35 V ceiling. -/
def c1ViolInput : List StepRecord :=
  [⟨[1], [0], [40], [1], [0]⟩]

/-- One step whose summed phase power is exactly `-EPSILON`. -/
def c4Input : List StepRecord :=
  [⟨[1], [-(1/1000000000)], [1], [1], [0]⟩]

/-- One step with zero power and all values within the ceilings. -/
def c4ZeroPowerInput : List StepRecord :=
  [⟨[3], [0], [1], [1], [0]⟩]

/-- Two steps within all ceilings, both with peak current above
`EPSILON`: peak phases are phase 0 (currents 3, 1) and phase 1
(currents 1, 2). -/
def c7Input : List StepRecord :=
  [⟨[2], [4], [6, 1], [3, 1], [1/1000, 2/1000]⟩,
   ⟨[4], [6], [5, 2], [1, 2], [3/1000, 4/1000]⟩]

/-- Two logged individuals, the second dominated by the first. -/
def c5Input : List LoggedInd :=
  [⟨"completed", ![10, 5, 1, 1/1000, 2, 1/100]⟩,
   ⟨"completed", ![8, 4, 2, 1/100, 3, 1/10]⟩]

/-- A run file holding one completed in-range individual, one completed
individual carrying the sentinel fitness, and one crashed individual. -/
def c8Input : List AnalysisMotor :=
  [⟨[⟨[⟨"completed", ![10, 5, 1, 1/1000, 2, 1/100]⟩,
       ⟨"completed", sentinelFitness⟩,
       ⟨"crashed", ![1, 1, 1, 1, 1, 1]⟩]⟩]⟩]

/-- An old-format run log with no completed motor. -/
def c10Input : List WBGeneration :=
  [⟨[⟨"started", some ⟨some 10, some 3, some (1/100), some (1/2)⟩⟩,
     ⟨"crashed", none⟩]⟩]

/-! # Helper lemmas -/

lemma clampQ_bounds {lo hi : ℚ} (x : ℚ) (h : lo ≤ hi) :
    lo ≤ clampQ lo hi x ∧ clampQ lo hi x ≤ hi :=
  ⟨le_min h (le_max_left _ _), min_le_left _ _⟩

lemma candidate_wire_diameters_length : candidate_wire_diameters.length = 14 := rfl

lemma gateSteps_eq_none_iff (rs : List StepRecord) :
    gateSteps rs = none ↔ ∃ e ∈ rs, stepViolates e := by
  induction rs with
  | nil => simp [gateSteps]
  | cons e rest ih =>
    by_cases h1 : peakInductance e > Inductance_Max
    · simp [gateSteps, h1, stepViolates]
    · by_cases h2 : peakVoltage e > Voltage_Max
      · simp [gateSteps, h1, h2, stepViolates]
      · cases hrec : gateSteps rest with
        | none =>
          constructor
          · intro _
            obtain ⟨x, hx, hv⟩ := ih.mp hrec
            exact ⟨x, List.mem_cons_of_mem _ hx, hv⟩
          · intro _
            simp [gateSteps, if_neg h1, if_neg h2, hrec]
        | some p =>
          obtain ⟨rs0, ls0⟩ := p
          constructor
          · intro h
            exfalso
            by_cases h3 : |peakCurrent e| > EPSILON <;>
              simp [gateSteps, if_neg h1, if_neg h2, hrec, h3] at h
          · intro hex
            obtain ⟨x, hx, hv⟩ := hex
            rcases List.mem_cons.mp hx with heq | hx'
            · subst heq
              rcases hv with hv | hv
              · exact absurd hv h1
              · exact absurd hv h2
            · have hnone := ih.mpr ⟨x, hx', hv⟩
              rw [hrec] at hnone
              exact absurd hnone (by simp)

lemma dominates_irrefl (a : Fin 6 → ℚ) : ¬ dominates a a := by
  rintro ⟨-, i, hi⟩
  exact lt_irrefl _ hi

lemma gateSteps_eq_selected (rs : List StepRecord) (h : ∀ e ∈ rs, ¬ stepViolates e) :
    gateSteps rs = some (selectedResistances rs, selectedInductances rs) := by
  induction rs with
  | nil => simp [gateSteps, selectedResistances, selectedInductances, qualifyingSteps]
  | cons e rest ih =>
    have he := h e (List.mem_cons_self e rest)
    have h1 : ¬ peakInductance e > Inductance_Max := fun hh => he (Or.inl hh)
    have h2 : ¬ peakVoltage e > Voltage_Max := fun hh => he (Or.inr hh)
    have ih' := ih (fun x hx => h x (List.mem_cons_of_mem _ hx))
    by_cases h3 : |peakCurrent e| > EPSILON <;>
      simp [gateSteps, h1, h2, ih', selectedResistances, selectedInductances,
        qualifyingSteps, h3]

lemma selectedInductances_ne_nil {rs : List StepRecord}
    (h : selectedResistances rs ≠ []) : selectedInductances rs ≠ [] := by
  intro hnil
  apply h
  unfold selectedInductances at hnil
  unfold selectedResistances
  simp only [List.map_eq_nil_iff] at hnil ⊢
  exact hnil

lemma foldl_best_spec (xs : List LoggedInd) (x : LoggedInd) :
    (xs.foldl (fun best y => if score y > score best then y else best) x) ∈ x :: xs ∧
    score x ≤ score (xs.foldl (fun best y => if score y > score best then y else best) x) ∧
    ∀ y ∈ xs,
      score y ≤ score (xs.foldl (fun best y => if score y > score best then y else best) x) := by
  induction xs generalizing x with
  | nil => simp
  | cons z zs ih =>
    simp only [List.foldl_cons]
    by_cases hz : score z > score x
    · simp only [if_pos hz]
      obtain ⟨hmem, hle, hall⟩ := ih z
      refine ⟨List.mem_cons_of_mem _ hmem, le_trans (le_of_lt hz) hle, ?_⟩
      intro y hy
      rcases List.mem_cons.mp hy with rfl | hy'
      · exact hle
      · exact hall y hy'
    · simp only [if_neg hz]
      obtain ⟨hmem, hle, hall⟩ := ih x
      refine ⟨?_, hle, ?_⟩
      · rcases List.mem_cons.mp hmem with heq | hmem'
        · rw [heq]; exact List.mem_cons_self _ _
        · exact List.mem_cons_of_mem _ (List.mem_cons_of_mem _ hmem')
      · intro y hy
        rcases List.mem_cons.mp hy with rfl | hy'
        · exact le_trans (not_lt.mp hz) hle
        · exact hall y hy'

lemma bestByScore_spec {V : List LoggedInd} {b : LoggedInd}
    (h : bestByScore V = some b) : b ∈ V ∧ ∀ y ∈ V, score y ≤ score b := by
  cases V with
  | nil => exact absurd h (by simp [bestByScore])
  | cons x xs =>
    have hb : xs.foldl (fun best y => if score y > score best then y else best) x = b := by
      simpa [bestByScore] using h
    obtain ⟨hmem, hx, hall⟩ := foldl_best_spec xs x
    rw [hb] at hmem hx hall
    refine ⟨hmem, ?_⟩
    intro y hy
    rcases List.mem_cons.mp hy with rfl | hy'
    · exact hx
    · exact hall y hy'

lemma find_best_inner_id (l : List WBMotor) (w4 : Fin 4 → ℚ)
    (acc : Option WBMotor × Option ℚ) (h : ∀ m ∈ l, m.status ≠ "completed") :
    l.foldl (fun best motor =>
      if motor.status = "completed" then
        let current_score := calculate_score (motor.fitness.getD ⟨none, none, none, none⟩) w4
        if beats current_score best.2 then (some motor, some current_score) else best
      else best) acc = acc := by
  induction l generalizing acc with
  | nil => rfl
  | cons m ms ih =>
    rw [List.foldl_cons, if_neg (h m (List.mem_cons_self m ms))]
    exact ih acc (fun x hx => h x (List.mem_cons_of_mem _ hx))

lemma eachTransitionPersisted_flat (l : List ℕ) :
    eachTransitionPersisted (l.flatMap (fun i =>
      [.logStarted i, .persist, .logCompleted i, .persist])) = true := by
  induction l with
  | nil => rfl
  | cons i is ih => simpa [eachTransitionPersisted, LogEvent.isTransition] using ih

/-! # Claims -/

/-- C1 (amended): the constraint gate of `evaluate_motor`
short-circuits to the sentinel failure fitness, but the power ceiling
is applied to the sweep-average power (not per step), and the per-step
checks cover only the inductance and voltage at the phase carrying
peak current magnitude: if the average power exceeds `Power_Max`, or
any step's peak-phase inductance or voltage exceeds its ceiling, the
returned fitness is the sentinel. -/
theorem c1_gate_short_circuits (results : List StepRecord) (hne : results ≠ []) :
    (avgPower results > Power_Max → evaluate_motor results = sentinel) ∧
    ((∃ e ∈ results, stepViolates e) → evaluate_motor results = sentinel) := by
  constructor
  · intro h
    simp [evaluate_motor, hne, h]
  · intro hex
    have hnone := (gateSteps_eq_none_iff results).mpr hex
    by_cases hp : avgPower results > Power_Max
    · simp [evaluate_motor, hne, hp]
    · simp [evaluate_motor, hne, hp, hnone]

/-- C1 (counterexample): a sweep whose first step's summed phase power
is 150 W — above the 100 W `Power_Max` ceiling — but whose sweep
average is only 75 W is *not* short-circuited to the sentinel: the
per-step power check the claim describes does not exist, only an
average-power check. -/
theorem c1_per_step_power_not_gated :
    (∃ e ∈ c1Input, e.phase_power.sum > Power_Max) ∧
    evaluate_motor c1Input ≠ sentinel := by
  constructor
  · exact ⟨⟨[1], [150], [1], [1], [0]⟩, by norm_num [c1Input], by norm_num [Power_Max]⟩
  · norm_num [evaluate_motor, c1Input, avgForce, avgPower, forcesOf, powersOf,
      gateSteps, peakIdx, argmaxAbs, peakCurrent, peakVoltage, peakInductance,
      EPSILON, Power_Max, Voltage_Max, Inductance_Max, ripple_peak_to_peak,
      resistance, time_constant, sentinel, List.range_succ, Fit.mk.injEq]
    simp

/-- C1 (witness): a sweep with one step whose peak-phase voltage is
40 V, above the 35 V ceiling, is short-circuited to the sentinel. -/
theorem c1_gate_short_circuits_witness : evaluate_motor c1ViolInput = sentinel := by
  apply (c1_gate_short_circuits c1ViolInput (by simp [c1ViolInput])).2
  refine ⟨⟨[1], [0], [40], [1], [0]⟩, by simp [c1ViolInput], Or.inr ?_⟩
  norm_num [peakVoltage, peakIdx, argmaxAbs, Voltage_Max, List.range_succ]

/-- C4 (amended): the force-per-watt divisor is exactly
`average power + EPSILON` with `EPSILON = 1e-9`; it is nonzero whenever
the average power is nonnegative — in particular at average power 0 the
objective is `average force / 1e-9` — and it is the value the returned
fitness carries whenever no constraint short-circuits evaluation. The
divisor *can* be exactly zero, at average power `-1e-9`. -/
theorem c4_force_per_watt_divisor (results : List StepRecord) (hne : results ≠ [])
    (hp : 0 ≤ avgPower results) :
    avgPower results + EPSILON ≠ 0 ∧
    (avgPower results = 0 → force_per_watt results = avgForce results / EPSILON) ∧
    (¬ avgPower results > Power_Max → gateSteps results ≠ none →
      (evaluate_motor results).force_per_watt = force_per_watt results) := by
  refine ⟨?_, ?_, ?_⟩
  · have heps : (0:ℚ) < EPSILON := by norm_num [EPSILON]
    have : 0 < avgPower results + EPSILON := by linarith
    exact this.ne'
  · intro h0
    rw [force_per_watt, h0, zero_add]
  · intro hpm hgate
    obtain ⟨p, hp'⟩ := Option.ne_none_iff_exists'.mp hgate
    obtain ⟨rs0, ls0⟩ := p
    simp [evaluate_motor, hne, hpm, hp', force_per_watt]

/-- C4 (counterexample): at the non-empty sweep whose single step has
summed phase power exactly `-1e-9`, the divisor
`average power + EPSILON` is exactly zero, refuting "the divisor of
this division is never exactly zero for any input". -/
theorem c4_divisor_can_vanish :
    c4Input ≠ [] ∧ avgPower c4Input + EPSILON = 0 := by
  constructor
  · simp [c4Input]
  · norm_num [avgPower, powersOf, c4Input, EPSILON]

/-- C4 (witness): a one-step sweep with zero power has nonzero divisor
and force-per-watt equal to `average force / 1e-9`. -/
theorem c4_force_per_watt_divisor_witness :
    avgPower c4ZeroPowerInput + EPSILON ≠ 0 ∧
    force_per_watt c4ZeroPowerInput = avgForce c4ZeroPowerInput / EPSILON := by
  have h := c4_force_per_watt_divisor c4ZeroPowerInput (by simp [c4ZeroPowerInput])
    (by norm_num [avgPower, powersOf, c4ZeroPowerInput])
  exact ⟨h.1, h.2.1 (by norm_num [avgPower, powersOf, c4ZeroPowerInput])⟩

/-- C2: a sweep with zero steps (the empty results list returned by
`simulate` on any solver exception or empty result) makes
`evaluate_motor` return the universal failure sentinel — the
very-large-magnitude value in the penalized direction for every
objective — and evaluation is a total function (it cannot raise). -/
theorem c2_empty_sweep_sentinel :
    evaluate_motor [] = sentinel ∧
    sentinel = ⟨-1000000, -1000000, 1000000, 1000000, 1000000, 1000000⟩ :=
  ⟨rfl, rfl⟩

/-- C3: after the post-variation clamp, every continuous field of an
offspring lies within its configured `[low, high]` bound and the wire
slot holds an integer in `[0, len(candidate_wire_diameters)-1]`; the
wire-index normalisation at the head of `evaluate_motor`
(round-to-nearest then clamp) likewise always yields an in-range
integer index, so the catalog lookup is never out of range. -/
theorem c3_clamp_bounds (ind : RawInd) (w : ℚ) :
    (Radial_Thickness_Bounds.1 ≤ (clampInd ind).thickness ∧
      (clampInd ind).thickness ≤ Radial_Thickness_Bounds.2) ∧
    (Axial_Length_Bounds.1 ≤ (clampInd ind).length ∧
      (clampInd ind).length ≤ Axial_Length_Bounds.2) ∧
    (Axial_Spacing_Bounds.1 ≤ (clampInd ind).spacing ∧
      (clampInd ind).spacing ≤ Axial_Spacing_Bounds.2) ∧
    (Radial_Thickness_Bounds.1 ≤ (clampInd ind).back ∧
      (clampInd ind).back ≤ Radial_Thickness_Bounds.2) ∧
    (0 ≤ (clampInd ind).wire ∧
      (clampInd ind).wire ≤ (candidate_wire_diameters.length : ℤ) - 1) ∧
    (0 ≤ wireIndex w ∧ (wireIndex w).toNat < candidate_wire_diameters.length) := by
  refine ⟨clampQ_bounds _ (by norm_num [Radial_Thickness_Bounds]),
          clampQ_bounds _ (by norm_num [Axial_Length_Bounds]),
          clampQ_bounds _ (by norm_num [Axial_Spacing_Bounds]),
          clampQ_bounds _ (by norm_num [Radial_Thickness_Bounds]),
          ?_, ?_⟩
  · simp only [clampInd, candidate_wire_diameters_length]
    omega
  · simp only [wireIndex, candidate_wire_diameters_length]
    omega

/-- C7: for a non-empty sweep passing the constraint gate, the
resistance objective is the mean of `|voltage/current|` at the
peak-current phase over the steps whose peak current magnitude exceeds
`EPSILON`; the inductance objective is the co-located peak-phase
inductance averaged over the same steps; and the time constant is
inductance/resistance when the averaged resistance exceeds `EPSILON`,
else 0. -/
theorem c7_resistance_inductance_tau (results : List StepRecord) (hne : results ≠ [])
    (hpm : ¬ avgPower results > Power_Max)
    (hok : ∀ e ∈ results, ¬ stepViolates e)
    (hq : selectedResistances results ≠ []) :
    (evaluate_motor results).avg_resistance =
      (selectedResistances results).sum / (selectedResistances results).length ∧
    (evaluate_motor results).avg_inductance =
      (selectedInductances results).sum / (selectedInductances results).length ∧
    (evaluate_motor results).tau =
      (if (selectedResistances results).sum / (selectedResistances results).length >
          EPSILON then
        ((selectedInductances results).sum / (selectedInductances results).length) /
          ((selectedResistances results).sum / (selectedResistances results).length)
      else 0) := by
  have hgate := gateSteps_eq_selected results hok
  have hq2 := selectedInductances_ne_nil hq
  simp [evaluate_motor, hne, hpm, hgate, hq, hq2, time_constant]

/-- C7 (witness): on the two-step in-limits sweep `c7Input` the
averaged resistance is 3/2, the averaged inductance 1/400, and the
time constant their quotient 1/600. -/
theorem c7_resistance_inductance_tau_witness :
    (evaluate_motor c7Input).avg_resistance =
      (selectedResistances c7Input).sum / (selectedResistances c7Input).length ∧
    (evaluate_motor c7Input).avg_inductance =
      (selectedInductances c7Input).sum / (selectedInductances c7Input).length ∧
    (evaluate_motor c7Input).tau =
      (if (selectedResistances c7Input).sum / (selectedResistances c7Input).length >
          EPSILON then
        ((selectedInductances c7Input).sum / (selectedInductances c7Input).length) /
          ((selectedResistances c7Input).sum / (selectedResistances c7Input).length)
      else 0) := by
  apply c7_resistance_inductance_tau
  · simp [c7Input]
  · norm_num [avgPower, powersOf, c7Input, Power_Max]
  · intro e he
    simp only [c7Input, List.mem_cons, List.not_mem_nil, or_false] at he
    rcases he with rfl | rfl <;>
      norm_num [stepViolates, peakVoltage, peakInductance, peakIdx, argmaxAbs,
        Voltage_Max, Inductance_Max, List.range_succ]
  · norm_num [selectedResistances, qualifyingSteps, c7Input, peakCurrent, peakIdx,
      argmaxAbs, EPSILON, List.range_succ, List.filter]
    simp

/-- C5: membership in the Pareto front computed by `analysis.py`: an
individual belongs to `pareto_front l` iff it belongs to `l` and no
member of `l` dominates it — so the front is a subset of the input
containing no element dominated by another element of the same input,
for every input (including the empty and singleton lists), and mutual
non-domination (ties) leaves both individuals in the front. -/
theorem c5_pareto_front_iff (l : List LoggedInd) (x : LoggedInd) :
    x ∈ pareto_front l ↔
      x ∈ l ∧ ∀ y ∈ l, ¬ dominates (extract_fitness y) (extract_fitness x) := by
  unfold pareto_front
  rw [List.mem_map]
  constructor
  · rintro ⟨⟨i, x'⟩, hmem, rfl⟩
    rw [List.mem_filter] at hmem
    obtain ⟨henum, hP⟩ := hmem
    rw [List.mk_mem_enum_iff_getElem?] at henum
    refine ⟨List.mem_iff_getElem?.mpr ⟨i, henum⟩, ?_⟩
    intro y hy hdom
    obtain ⟨j, hj⟩ := List.mem_iff_getElem?.mp hy
    simp only [Bool.not_eq_true', List.any_eq_false] at hP
    by_cases hij : j = i
    · subst hij
      rw [henum] at hj
      have hxy : x' = y := by injection hj
      subst hxy
      exact dominates_irrefl _ hdom
    · have hq := hP (j, y) (List.mk_mem_enum_iff_getElem?.mpr hj)
      have hq' : ¬ (j ≠ i ∧ dominates (extract_fitness y) (extract_fitness x')) := by
        simpa using hq
      exact hq' ⟨hij, hdom⟩
  · rintro ⟨hx, hnd⟩
    obtain ⟨i, hi⟩ := List.mem_iff_getElem?.mp hx
    refine ⟨(i, x), ?_, rfl⟩
    rw [List.mem_filter]
    refine ⟨List.mk_mem_enum_iff_getElem?.mpr hi, ?_⟩
    simp only [Bool.not_eq_true', List.any_eq_false]
    rintro ⟨j, y⟩ hq
    rw [List.mk_mem_enum_iff_getElem?] at hq
    have hyl : y ∈ l := List.mem_iff_getElem?.mpr ⟨j, hq⟩
    have hd := hnd y hyl
    simp [hd]

/-- C5 (witness): in the concrete two-element collection `c5Input` the
first individual, which no member dominates, belongs to the Pareto
front. -/
theorem c5_pareto_front_iff_witness :
    (⟨"completed", ![10, 5, 1, 1/1000, 2, 1/100]⟩ : LoggedInd) ∈ pareto_front c5Input := by
  apply (c5_pareto_front_iff c5Input _).mpr
  refine ⟨by simp [c5Input], ?_⟩
  intro y hy
  simp only [c5Input, List.mem_cons, List.not_mem_nil, or_false] at hy
  rcases hy with rfl | rfl
  · exact dominates_irrefl _
  · rintro ⟨hall, -⟩
    have h0 := hall 0
    norm_num [WEIGHTS, extract_fitness] at h0

/-- C8: the scalarization selector of `analysis.py` considers exactly
the individuals whose status is `"completed"` and all of whose
objectives have magnitude below the `1e5` sanity threshold; in
particular any individual carrying the sentinel failure fitness is
excluded; and the selected best is a considered individual whose
weighted score is maximal among the considered individuals only. -/
theorem c8_selector_filters_and_maximizes (data : List AnalysisMotor)
    (ind : LoggedInd) (V : List LoggedInd) (b : LoggedInd) :
    (ind ∈ validIndividuals data ↔
      (∃ motor ∈ data, ∃ gen ∈ motor.generations, ind ∈ gen.individuals) ∧
        ind.status = "completed" ∧ ∀ i, |extract_fitness ind i| < 100000) ∧
    (ind.fitness = sentinelFitness → ind ∉ validIndividuals data) ∧
    (bestByScore V = some b → b ∈ V ∧ ∀ y ∈ V, score y ≤ score b) := by
  have hmem : ind ∈ validIndividuals data ↔
      (∃ motor ∈ data, ∃ gen ∈ motor.generations, ind ∈ gen.individuals) ∧
        ind.status = "completed" ∧ ∀ i, |extract_fitness ind i| < 100000 := by
    simp only [validIndividuals, List.mem_flatMap, List.mem_filter, validInd,
      Bool.and_eq_true, decide_eq_true_eq]
    constructor
    · rintro ⟨m, hm, g, hg, hi, hs, hf⟩
      exact ⟨⟨m, hm, g, hg, hi⟩, hs, hf⟩
    · rintro ⟨⟨m, hm, g, hg, hi⟩, hs, hf⟩
      exact ⟨m, hm, g, hg, hi, hs, hf⟩
  refine ⟨hmem, ?_, fun h => bestByScore_spec h⟩
  intro hf hin
  have h0 := (hmem.mp hin).2.2 0
  rw [extract_fitness, hf] at h0
  norm_num [sentinelFitness] at h0

/-- C8 (witness): a completed individual carrying the sentinel failure
fitness is excluded from the considered individuals of `c8Input`. -/
theorem c8_selector_filters_witness :
    (⟨"completed", sentinelFitness⟩ : LoggedInd) ∉ validIndividuals c8Input :=
  (c8_selector_filters_and_maximizes c8Input ⟨"completed", sentinelFitness⟩
    [] default).2.1 rfl

/-- C9: the scalarization score of `weighted_best.py` is the pure
weighted sum `Σ weight_i * f_i` of the fitness tuple, and at
`weights = (5, 2, -1, -1)` and fitness `(10, 3, 0.01, 0.5)` it equals
exactly `55.49`. -/
theorem c9_weighted_score (w4 : Fin 4 → ℚ) (a b c d : ℚ) :
    calculate_score ⟨some a, some b, some c, some d⟩ w4 = ∑ i, w4 i * ![a, b, c, d] i ∧
    calculate_score ⟨some 10, some 3, some (1/100), some (1/2)⟩ wbWeights = 5549/100 := by
  constructor
  · simp [calculate_score, Fin.sum_univ_four]
  · norm_num [calculate_score, wbWeights]

/-- C6 (amended): within a generation both loops process individuals
strictly in population order — the status-transition subsequence of the
trace is `started 0, completed 0, started 1, completed 1, …` — but only
the old loop (`old optimization/bluefin_optimization.py`) persists the
log after every status transition (`2n` writes per generation); the
current loop (`bluefin_motor.py`) batches persistence into exactly one
`write_output_json` call, placed after all of the generation's
transitions, so the persisted log is a prefix at whole-generation
granularity and a crash loses at most one in-flight generation. -/
theorem c6_log_write_schedule (n : ℕ) :
    transitionsOf (newGenTrace n) =
      (List.range n).flatMap (fun i => [.logStarted i, .logCompleted i]) ∧
    persistCount (newGenTrace n) = 1 ∧
    (newGenTrace n).getLast? = some .persist ∧
    transitionsOf (oldGenTrace n) =
      (List.range n).flatMap (fun i => [.logStarted i, .logCompleted i]) ∧
    persistCount (oldGenTrace n) = 2 * n ∧
    eachTransitionPersisted (transitionsAndWrites (oldGenTrace n)) = true := by
  refine ⟨?_, ?_, ?_, ?_, ?_, ?_⟩
  · simp [transitionsOf, newGenTrace, List.filter_append, List.filter_flatMap,
      List.filter, LogEvent.isTransition]
  · simp [persistCount, newGenTrace, List.filter_append, List.filter_flatMap,
      List.filter, Function.comp_def, List.sum_const_nat]
  · exact List.getLast?_concat _
  · simp [transitionsOf, oldGenTrace, List.filter_flatMap, List.filter,
      LogEvent.isTransition]
  · simp [persistCount, oldGenTrace, List.filter_flatMap, List.filter,
      Function.comp_def, List.sum_const_nat]
    ring
  · have htw : transitionsAndWrites (oldGenTrace n) =
        (List.range n).flatMap (fun i =>
          [.logStarted i, .persist, .logCompleted i, .persist]) := by
      simp [transitionsAndWrites, oldGenTrace, List.filter_flatMap, List.filter,
        LogEvent.isTransition]
    rw [htw]
    exact eachTransitionPersisted_flat _

/-- C6 (counterexample): in the current loop's generation trace for two
individuals there are four status transitions but a single persistent
write, and the write does not follow each transition — refuting "each
triple is written to persistent storage after every individual's status
transition (not batched per generation)". -/
theorem c6_current_loop_batches :
    eachTransitionPersisted (transitionsAndWrites (newGenTrace 2)) = false ∧
    persistCount (newGenTrace 2) = 1 ∧
    (transitionsOf (newGenTrace 2)).length = 4 := by
  refine ⟨by decide, by decide, by decide⟩

/-- C10: `find_best_motor` is total on well-formed result data; when no
individual has status `"completed"` it returns the initial pair —
`None` with the `-inf` score (modelled as `(none, none)`) — instead of
raising; and a missing fitness field of a completed individual
contributes 0 to the weighted score (replacing a missing field by an
explicit 0 leaves the score unchanged) rather than excluding the
individual. -/
theorem c10_find_best_motor_total (data : List WBGeneration) (w4 : Fin 4 → ℚ)
    (fd : FitnessData) :
    ((∀ gen ∈ data, ∀ m ∈ gen.individuals, m.status ≠ "completed") →
      find_best_motor data w4 = (none, none)) ∧
    calculate_score { fd with average_force := none } w4 =
      calculate_score { fd with average_force := some 0 } w4 ∧
    calculate_score { fd with force_per_watt := none } w4 =
      calculate_score { fd with force_per_watt := some 0 } w4 ∧
    calculate_score { fd with average_inductance := none } w4 =
      calculate_score { fd with average_inductance := some 0 } w4 ∧
    calculate_score { fd with peak_to_peak_force := none } w4 =
      calculate_score { fd with peak_to_peak_force := some 0 } w4 := by
  refine ⟨?_, rfl, rfl, rfl, rfl⟩
  intro h
  unfold find_best_motor
  induction data with
  | nil => rfl
  | cons gen gens ih =>
    rw [List.foldl_cons,
      find_best_inner_id gen.individuals w4 _ (h gen (List.mem_cons_self gen gens))]
    exact ih (fun g hg => h g (List.mem_cons_of_mem _ hg))

/-- C10 (witness): on a log whose individuals are `"started"` and
`"crashed"` only, `find_best_motor` returns `(none, none)`. -/
theorem c10_find_best_motor_total_witness :
    find_best_motor c10Input wbWeights = (none, none) := by
  apply (c10_find_best_motor_total c10Input wbWeights ⟨none, none, none, none⟩).1
  intro gen hgen m hm
  simp only [c10Input, List.mem_cons, List.not_mem_nil, or_false] at hgen
  subst hgen
  simp only [List.mem_cons, List.not_mem_nil, or_false] at hm
  rcases hm with rfl | rfl <;> simp

end BlueFin
